import Mathlib

/-!
# Verification of the compose2podman generation core

Shallow embedding of the repository's normalization layer
(`internal/types/compose.go`), the spec parsers and manifest generator
(`pkg/kube/generator.go`), and the unit-file generator
(`pkg/quadlet/generator.go`).

Modelling conventions:
* Go strings are modelled as `List Char` (rune sequences).  All the
  delimiters the code searches for (`:`, `=`, `/`, `\`, `-`, `.`) are
  ASCII, so Go's byte indices always fall on rune boundaries at exactly
  the rune index used here, and byte slicing coincides with rune slicing.
* `strings.ToLower` is modelled on the ASCII range (`asciiLower`); Go
  additionally lowers non-ASCII letters, which none of the verified
  properties depend on.
* `filepath.Clean` is modelled for the Unix separator `'/'` (the
  behaviour the repository's own tests pin down, e.g.
  `pathToVolumeName "C:/data" = "c--data"`).
* Go maps are modelled as association lists; map iteration order, which
  Go leaves unspecified, becomes list order.
-/

namespace Compose2Podman

/-- Rune list of a string literal. -/
def chars (s : String) : List Char := s.data

/-! ## String utilities (strings.Split, strings.Trim, strings.Join) -/

/-- `strings.Split` for a single-character separator. -/
def splitOnChar (sep : Char) : List Char → List (List Char)
  | [] => [[]]
  | c :: cs =>
    let r := splitOnChar sep cs
    if c = sep then [] :: r
    else
      match r with
      | [] => [[c]]
      | h :: t => (c :: h) :: t

/-- `strings.Join` for a single-character separator. -/
def joinSep (sep : Char) : List (List Char) → List Char
  | [] => []
  | [x] => x
  | x :: xs => x ++ sep :: joinSep sep xs

/-- `strings.TrimLeft` for a one-character cutset. -/
def trimLeftChar (c : Char) (s : List Char) : List Char :=
  s.dropWhile (fun d => d = c)

/-- `strings.TrimRight` for a one-character cutset. -/
def trimRightChar (c : Char) (s : List Char) : List Char :=
  (trimLeftChar c s.reverse).reverse

/-- `strings.Trim` for a one-character cutset. -/
def trimChar (c : Char) (s : List Char) : List Char :=
  trimRightChar c (trimLeftChar c s)

/-- `strings.ReplaceAll` for one-character pattern and replacement. -/
def replaceAllChar (a b : Char) (s : List Char) : List Char :=
  s.map (fun c => if c = a then b else c)

/-- `strings.HasPrefix`: `s` begins with the character run `pre`. -/
def hasLead (pre s : List Char) : Bool :=
  s.take pre.length == pre

/-- ASCII case lowering, modelling `strings.ToLower` on the ASCII range. -/
def asciiLower (c : Char) : Char :=
  if 65 ≤ c.toNat ∧ c.toNat ≤ 90 then Char.ofNat (c.toNat + 32) else c

/-! ## filepath.Clean (Unix separator) -/

/-- One element step of `filepath.Clean`: `.` is skipped, `..` pops the
last real element (or is kept/dropped at the front depending on
rootedness), anything else is pushed. -/
def cleanStep (rooted : Bool) (st : List (List Char)) (c : List Char) : List (List Char) :=
  if c = chars "." then st
  else if c = chars ".." then
    if st ≠ [] ∧ st.getLast? ≠ some (chars "..") then st.dropLast
    else if rooted then st else st ++ [c]
  else st ++ [c]

/-- The non-empty separator-delimited elements of a path. -/
def pathComps (p : List Char) : List (List Char) :=
  (splitOnChar '/' p).filter (fun c => !(c == []))

/-- `filepath.Clean` (Unix): empty path becomes `.`, separators collapse,
`.`/`..` elements resolve, a rooted path keeps its leading `/`. -/
def clean (p : List Char) : List Char :=
  if p = [] then chars "."
  else
    let rooted := p.head? == some '/'
    let stack := (pathComps p).foldl (cleanStep rooted) []
    let joined := joinSep '/' stack
    if rooted then (if joined = [] then chars "/" else '/' :: joined)
    else (if joined = [] then chars "." else joined)

/-! ## pkg/kube spec parsers -/

/-- `parsePort` (generator.go): three colon segments are
`ip:hostPort:containerPort`, two are `hostPort:containerPort`, anything
else is a bare container port.  Returns `(containerPort, hostPort)`. -/
def parsePort (port : List Char) : List Char × List Char :=
  let parts := splitOnChar ':' port
  if h3 : parts.length = 3 then
    (parts.get ⟨2, by omega⟩, parts.get ⟨0, by omega⟩ ++ ':' :: parts.get ⟨1, by omega⟩)
  else if h2 : parts.length = 2 then
    (parts.get ⟨1, by omega⟩, parts.get ⟨0, by omega⟩)
  else
    (port, [])

/-- `parseUser` (generator.go): `user:group` splits into the pair,
any other shape yields the whole input and no group. -/
def parseUser (user : List Char) : List Char × List Char :=
  match splitOnChar ':' user with
  | [u, g] => (u, g)
  | _ => (user, [])

/-- The Windows-drive guard of `parseVolume`:
`len(vol) >= 3 && vol[1] == ':' && (vol[2] == '/' || vol[2] == '\\')`. -/
def windowsVolPat (vol : List Char) : Bool :=
  decide (3 ≤ vol.length) && vol[1]? == some ':' &&
    (vol[2]? == some '/' || vol[2]? == some '\\')

/-- The source/target isolation step of `parseVolume`: on the Windows
pattern the delimiter is the next colon after position 2, otherwise a
plain split on `:`; `none` encodes the anonymous-volume fallback. -/
def isolateSource (vol : List Char) : Option (List Char × List Char) :=
  if windowsVolPat vol then
    match (vol.drop 3).findIdx? (fun c => c = ':') with
    | some idx => some (vol.take (3 + idx), vol.drop (3 + idx + 1))
    | none => none
  else
    match splitOnChar ':' vol with
    | src :: mp :: _ => some (src, mp)
    | _ => none

/-- `isHostPath` (generator.go): absolute, `./`/`../`-relative, a colon
in position 1, or any path separator anywhere. -/
def isHostPath (path : List Char) : Bool :=
  if hasLead (chars "/") path then true
  else if hasLead (chars "./") path || hasLead (chars "../") path then true
  else if decide (2 ≤ path.length) && path[1]? == some ':' then true
  else if path.contains '/' || path.contains '\\' then true
  else false

/-- Head test of `pathToVolumeName`'s prefix guard:
`volumeName[0] == '-' || (volumeName[0] >= '0' && volumeName[0] <= '9')`
(with the `len > 0` guard folded in). -/
def dashOrDigit (t : List Char) : Bool :=
  match t with
  | [] => false
  | c :: _ => c == '-' || (decide ('0' ≤ c) && decide (c ≤ '9'))

/-- The replacement/lowering stage of `pathToVolumeName`. -/
def volSanitize (s : List Char) : List Char :=
  let v1 := replaceAllChar ':' '-' s
  let v2 := replaceAllChar '/' '-' v1
  let v3 := replaceAllChar '\\' '-' v2
  let v4 := replaceAllChar '.' '-' v3
  let v5 := replaceAllChar '_' '-' v4
  v5.map asciiLower

/-- Cleaned, sanitized and dash-trimmed volume name (the value Go's
`volumeName` holds just before the prefix/truncate/fallback steps). -/
def volTrimmed (path : List Char) : List Char :=
  trimChar '-' (volSanitize (clean path))

/-- `pathToVolumeName` (generator.go): clean, replace separators and
specials with `-`, lower-case, trim dashes, prefix `vol-` if the result
starts with a dash or digit, truncate to 63 trimming trailing dashes,
and fall back to `volume` if empty. -/
def pathToVolumeName (path : List Char) : List Char :=
  let t := volTrimmed path
  let p := if dashOrDigit t then chars "vol-" ++ t else t
  let q := if 63 < p.length then trimRightChar '-' (p.take 63) else p
  if q = [] then chars "volume" else q

/-- The four named results of `parseVolume`. -/
structure ParsedVolume where
  mountPath : List Char
  volumeName : List Char
  hostPath : List Char
  isPath : Bool
  deriving DecidableEq, Repr

/-- `parseVolume` (generator.go): isolate source and target (Windows
drive letters special-cased), fall back to the anonymous volume
`unnamed-vol` when no delimiter exists, then classify the source and
name it. -/
def parseVolume (vol : List Char) : ParsedVolume :=
  match isolateSource vol with
  | none => ⟨vol, chars "unnamed-vol", [], false⟩
  | some (source, mountPath) =>
    if isHostPath source then
      ⟨mountPath, pathToVolumeName source, source, true⟩
    else
      ⟨mountPath, source, source, false⟩

/-! ## internal/types: the raw data model and the Field Normalizer -/

/-- A decoded YAML value as Go's `interface{}` holds it: `nil`, a
string, a sequence, a string-keyed map, or an untyped-keyed map. -/
inductive GoVal where
  | vnil : GoVal
  | vstr : List Char → GoVal
  | vseq : List GoVal → GoVal
  | vmapS : List (List Char × GoVal) → GoVal
  | vmapI : List (GoVal × GoVal) → GoVal
  deriving Inhabited

/-- `findEquals` (compose.go): index of the first `=`, `-1` if none. -/
def findEquals (s : List Char) : Int :=
  match s.findIdx? (fun c => c = '=') with
  | some i => (i : Int)
  | none => -1

/-- Assignment into a Go `map[string]string`, as an association list:
replace the binding of an existing key, else append. -/
def envInsert (m : List (List Char × List Char)) (k v : List Char) :
    List (List Char × List Char) :=
  if m.any (fun p => p.1 == k) then
    m.map (fun p => if p.1 == k then (k, v) else p)
  else m ++ [(k, v)]

/-- One `[]interface{}` entry of `EnvironmentMap`: split a `KEY=VALUE`
string at the first `=`, provided that `=` sits at a positive index. -/
def envSeqStep (m : List (List Char × List Char)) (s : List Char) :
    List (List Char × List Char) :=
  let idx := findEquals s
  if 0 < idx then envInsert m (s.take idx.toNat) (s.drop (idx.toNat + 1)) else m

/-- `Service.EnvironmentMap` (compose.go): accept a string-keyed map, an
untyped-keyed map, or a sequence of `KEY=VALUE` strings; anything else
yields the empty map. -/
def environmentMap : GoVal → List (List Char × List Char)
  | .vmapS entries =>
    entries.foldl
      (fun env p => match p.2 with | .vstr s => envInsert env p.1 s | _ => env) []
  | .vmapI entries =>
    entries.foldl
      (fun env p =>
        match p.1, p.2 with
        | .vstr k, .vstr v => envInsert env k v
        | _, _ => env) []
  | .vseq items =>
    items.foldl
      (fun env it => match it with | .vstr s => envSeqStep env s | _ => env) []
  | _ => []

/-- `Service.NetworksList` (compose.go). -/
def networksList : GoVal → List (List Char)
  | .vseq items =>
    items.foldl (fun acc it => match it with | .vstr s => acc ++ [s] | _ => acc) []
  | .vmapS entries => entries.foldl (fun acc p => acc ++ [p.1]) []
  | .vmapI entries =>
    entries.foldl (fun acc p => match p.1 with | .vstr s => acc ++ [s] | _ => acc) []
  | _ => []

/-- `Service.DependsOnList` (compose.go). -/
def dependsOnList : GoVal → List (List Char)
  | .vseq items =>
    items.foldl (fun acc it => match it with | .vstr s => acc ++ [s] | _ => acc) []
  | .vmapS entries => entries.foldl (fun acc p => acc ++ [p.1]) []
  | .vmapI entries =>
    entries.foldl (fun acc p => match p.1 with | .vstr s => acc ++ [s] | _ => acc) []
  | _ => []

/-- `Service.CommandList` (compose.go): a string wraps to a singleton,
a sequence keeps its string elements, anything else is empty. -/
def commandList : GoVal → List (List Char)
  | .vstr s => [s]
  | .vseq items =>
    items.foldl (fun acc it => match it with | .vstr s => acc ++ [s] | _ => acc) []
  | _ => []

/-- `Service.EntrypointList` (compose.go), same shape as `CommandList`. -/
def entrypointList : GoVal → List (List Char)
  | .vstr s => [s]
  | .vseq items =>
    items.foldl (fun acc it => match it with | .vstr s => acc ++ [s] | _ => acc) []
  | _ => []

/-- `types.Service`. -/
structure Service where
  image : List Char := []
  containerName : List Char := []
  restart : List Char := []
  workingDir : List Char := []
  user : List Char := []
  hostname : List Char := []
  privileged : Bool := false
  build : GoVal := .vnil
  ports : List (List Char) := []
  environment : GoVal := .vnil
  volumes : List (List Char) := []
  networks : GoVal := .vnil
  dependsOn : GoVal := .vnil
  command : GoVal := .vnil
  entrypoint : GoVal := .vnil
  labels : List (List Char × List Char) := []
  capAdd : List (List Char) := []
  capDrop : List (List Char) := []

/-- `types.Network`. -/
structure NetworkDef where
  driver : List Char := []
  external : Bool := false
  labels : List (List Char × List Char) := []

/-- `types.Volume`. -/
structure VolumeDef where
  driver : List Char := []
  external : Bool := false
  labels : List (List Char × List Char) := []

/-- `types.ComposeFile`; the name-keyed Go maps become association
lists, iterated in list order. -/
structure ComposeFile where
  version : List Char := []
  services : List (List Char × Service) := []
  networks : List (List Char × NetworkDef) := []
  volumes : List (List Char × VolumeDef) := []

/-! ## pkg/kube manifest generator -/

/-- `volumeInfo` (generator.go): the per-name entry of the deduplicated
volume table. -/
structure VolumeInfo where
  name : List Char
  hostPath : List Char
  isPath : Bool
  deriving DecidableEq, Repr

/-- The volume-mounts loop of `generateContainer`: accumulate the
`volumeMounts:` text and record each first-seen volume name in the
table. -/
def collectVolumes (vols : List (List Char)) (used : List VolumeInfo) :
    List Char × List VolumeInfo :=
  vols.foldl
    (fun acc vol =>
      let pv := parseVolume vol
      let text := acc.1 ++ chars "    - name: " ++ pv.volumeName ++
        chars "\n      mountPath: " ++ pv.mountPath ++ chars "\n"
      let table :=
        if acc.2.any (fun vi => vi.name == pv.volumeName) then acc.2
        else acc.2 ++ [⟨pv.volumeName, pv.hostPath, pv.isPath⟩]
      (text, table))
    (chars "    volumeMounts:\n", used)

/-- The error text of `generateContainer`'s required-image check. -/
def imageErr (name : List Char) : List Char :=
  chars "service " ++ name ++ chars ": image is required (build not supported)"

/-- `generateContainer` (kube generator.go): one container block, or the
missing-image error; also returns the updated volume table. -/
def generateContainer (name : List Char) (sv : Service)
    (usedVolumes : List VolumeInfo) :
    Except (List Char) (List Char × List VolumeInfo) :=
  let containerName := if sv.containerName ≠ [] then sv.containerName else name
  let nameLine := chars "  - name: " ++ containerName ++ chars "\n"
  if sv.image ≠ [] then
    let imageLine := chars "    image: " ++ sv.image ++ chars "\n"
    let cmd := commandList sv.command
    let cmdSec :=
      if cmd ≠ [] then
        chars "    command:\n" ++
          (cmd.map (fun c => chars "    - " ++ c ++ chars "\n")).flatten
      else []
    let ep := entrypointList sv.entrypoint
    let epSec :=
      if ep ≠ [] then
        chars "    args:\n" ++
          (ep.map (fun a => chars "    - " ++ a ++ chars "\n")).flatten
      else []
    let env := environmentMap sv.environment
    let envSec :=
      if env ≠ [] then
        chars "    env:\n" ++
          (env.map (fun p =>
            chars "    - name: " ++ p.1 ++ chars "\n      value: \"" ++ p.2 ++
              chars "\"\n")).flatten
      else []
    let portsSec :=
      if sv.ports ≠ [] then
        chars "    ports:\n" ++
          (sv.ports.map (fun port =>
            let pp := parsePort port
            chars "    - containerPort: " ++ pp.1 ++ chars "\n" ++
              (if pp.2 ≠ [] then chars "      hostPort: " ++ pp.2 ++ chars "\n"
               else []))).flatten
      else []
    let volPair :=
      if sv.volumes ≠ [] then collectVolumes sv.volumes usedVolumes
      else ([], usedVolumes)
    let wdSec :=
      if sv.workingDir ≠ [] then
        chars "    workingDir: " ++ sv.workingDir ++ chars "\n"
      else []
    let secSec :=
      if sv.user ≠ [] ∨ sv.privileged then
        chars "    securityContext:\n" ++
          (if sv.user ≠ [] then
            let ug := parseUser sv.user
            (if ug.1 ≠ [] then chars "      runAsUser: " ++ ug.1 ++ chars "\n"
             else []) ++
            (if ug.2 ≠ [] then chars "      runAsGroup: " ++ ug.2 ++ chars "\n"
             else [])
           else []) ++
          (if sv.privileged then chars "      privileged: true\n" else [])
      else []
    .ok (nameLine ++ imageLine ++ cmdSec ++ epSec ++ envSec ++ portsSec ++
      volPair.1 ++ wdSec ++ secSec, volPair.2)
  else
    .error (imageErr name)

/-- The services loop of `Generate`: concatenate the container blocks,
short-circuiting on the first error. -/
def genServices : List (List Char × Service) → List VolumeInfo →
    Except (List Char) (List Char × List VolumeInfo)
  | [], vols => .ok ([], vols)
  | (nm, sv) :: rest, vols =>
    match generateContainer nm sv vols with
    | .error e => .error e
    | .ok (txt, vols2) =>
      match genServices rest vols2 with
      | .error e => .error e
      | .ok (txt2, vols3) => .ok (txt ++ txt2, vols3)

/-- One entry of the manifest's `volumes:` section: a host-path block
for path-classified entries, a claim block otherwise. -/
def volumeEntry (vi : VolumeInfo) : List Char :=
  chars "  - name: " ++ vi.name ++ chars "\n" ++
    (if vi.isPath then
      chars "    hostPath:\n      path: " ++ vi.hostPath ++
        chars "\n      type: DirectoryOrCreate\n"
     else
      chars "    persistentVolumeClaim:\n      claimName: " ++ vi.name ++ chars "\n")

/-- The manifest's `volumes:` section, emitted only when non-empty. -/
def volumesSection (vols : List VolumeInfo) : List Char :=
  if vols ≠ [] then chars "  volumes:\n" ++ (vols.map volumeEntry).flatten
  else []

/-- `Generator.Generate` (kube generator.go), returning the Go pair
`(string, error)` as manifest text and optional error message: the
error branch returns the empty string. -/
def generate (compose : ComposeFile) (podName : List Char) :
    List Char × Option (List Char) :=
  let header := chars "apiVersion: v1\nkind: Pod\nmetadata:\n  name: " ++ podName ++
    chars "\n  labels:\n    app: compose2podman\nspec:\n  containers:\n"
  match genServices compose.services [] with
  | .error e => ([], some e)
  | .ok (body, vols) =>
    (header ++ body ++ volumesSection vols ++ chars "  restartPolicy: Always\n", none)

/-! ## pkg/quadlet unit-file generator -/

/-- The restart-policy mapping of the quadlet `generateContainer`. -/
def restartPolicy (r : List Char) : List Char :=
  if r = chars "no" then chars "no"
  else if r = chars "always" then chars "always"
  else if r = chars "on-failure" then chars "on-failure"
  else if r = chars "unless-stopped" then chars "always"
  else chars "always"

/-- The `.container` unit body of the quadlet `generateContainer`, as
its list of lines (each Go `WriteString` chunk ends in `\n`; the
section-break chunks `"\n[X]\n"` contribute an empty line plus the
header line). -/
def quadletContainerLines (name : List Char) (sv : Service) : List (List Char) :=
  [chars "[Unit]", chars "Description=" ++ name ++ chars " container"] ++
  (let deps := dependsOnList sv.dependsOn
   if deps ≠ [] then
     let after := deps.map (fun dep => dep ++ chars ".service")
     [chars "After=" ++ joinSep ' ' after, chars "Requires=" ++ joinSep ' ' after]
   else []) ++
  [[], chars "[Container]"] ++
  (if sv.image ≠ [] then [chars "Image=" ++ sv.image] else []) ++
  [chars "ContainerName=" ++ (if sv.containerName ≠ [] then sv.containerName else name)] ++
  (environmentMap sv.environment).map
    (fun p => chars "Environment=" ++ p.1 ++ chars "=" ++ p.2) ++
  sv.ports.map (fun port => chars "PublishPort=" ++ port) ++
  sv.volumes.map (fun vol => chars "Volume=" ++ vol) ++
  (networksList sv.networks).map (fun net => chars "Network=" ++ net ++ chars ".network") ++
  (if sv.workingDir ≠ [] then [chars "WorkingDir=" ++ sv.workingDir] else []) ++
  (if sv.user ≠ [] then [chars "User=" ++ sv.user] else []) ++
  (let cmd := commandList sv.command
   if cmd ≠ [] then [chars "Exec=" ++ joinSep ' ' cmd] else []) ++
  (if sv.hostname ≠ [] then [chars "HostName=" ++ sv.hostname] else []) ++
  (if sv.privileged then [chars "SecurityLabelDisable=true"] else []) ++
  sv.capAdd.map (fun c => chars "AddCapability=" ++ c) ++
  sv.capDrop.map (fun c => chars "DropCapability=" ++ c) ++
  sv.labels.map (fun p => chars "Label=" ++ p.1 ++ chars "=" ++ p.2) ++
  [[], chars "[Service]", chars "Restart=" ++ restartPolicy sv.restart,
   chars "TimeoutStartSec=900", [], chars "[Install]", chars "WantedBy=default.target"]

/-- The `.container` unit file's full text: its lines each followed by
a newline, exactly as the Go builder concatenates them. -/
def quadletContainerText (name : List Char) (sv : Service) : List Char :=
  ((quadletContainerLines name sv).map (fun l => l ++ ['\n'])).flatten

/-! ## Concrete sample values (used by witnesses) -/

/-- A service with an image, as in the repository's own test. -/
def svcOk : Service := { image := chars "redis:alpine", ports := [chars "6379:6379"] }

/-- A service with an empty image field. -/
def svcNoImage : Service := {}

/-- A compose document whose services all carry images. -/
def composeOk : ComposeFile := { services := [(chars "redis", svcOk)] }

/-- A compose document whose second service lacks an image. -/
def composeBad : ComposeFile :=
  { services := [(chars "redis", svcOk), (chars "bad", svcNoImage)] }

/-- A service with two dependencies. -/
def svcDeps : Service :=
  { image := chars "nginx",
    dependsOn := GoVal.vseq [GoVal.vstr (chars "db"), GoVal.vstr (chars "cache")] }

/-! ## Verification-side definitions -/

/-- The characters `pathToVolumeName` replaces with `-`. -/
def badChar (c : Char) : Bool :=
  c == ':' || c == '/' || c == '\\' || c == '.' || c == '_'

/-- ASCII upper-case letter. -/
def upperChar (c : Char) : Bool :=
  decide (65 ≤ c.toNat) && decide (c.toNat ≤ 90)

/-- A character that survives sanitization unchanged: neither replaced
nor lowered. -/
def goodChar (c : Char) : Bool := !badChar c && !upperChar c

/-- One character replacement of `volSanitize`. -/
def replChar (a c : Char) : Char := if c = a then '-' else c

/-- The per-character action of `volSanitize`. -/
def sanChar (c : Char) : Char :=
  asciiLower (replChar '_' (replChar '.' (replChar '\\' (replChar '/' (replChar ':' c)))))

/-- The invariant of canonically generated volume names: non-empty, at
most 63 characters, only sanitization-stable characters, no leading
dash/digit, no trailing dash. -/
def goodName (o : List Char) : Prop :=
  o ≠ [] ∧ o.length ≤ 63 ∧ (∀ c ∈ o, goodChar c = true) ∧
    dashOrDigit o = false ∧ o.getLast? ≠ some '-'

/-- The claim-worded drive-letter pattern: second character is `:`
followed by `/` or `\`. -/
def driveLetterPat (s : List Char) : Bool :=
  match s with
  | _ :: b :: c :: _ => b == ':' && (c == '/' || c == '\\')
  | _ => false

/-- Host-path detection as the claim words it: leading `/`, leading
`./` or `../`, the drive-letter pattern, or a path separator anywhere. -/
def hostPathClaim (s : List Char) : Bool :=
  hasLead (chars "/") s || hasLead (chars "./") s || hasLead (chars "../") s ||
    driveLetterPat s || s.contains '/' || s.contains '\\'

/-! ## Lemmas: splitting -/

theorem splitOnChar_ne_nil (sep : Char) (s : List Char) : splitOnChar sep s ≠ [] := by
  induction s with
  | nil => simp [splitOnChar]
  | cons c cs ih =>
    simp only [splitOnChar]
    split
    · simp
    · cases h : splitOnChar sep cs with
      | nil => simp
      | cons a t => simp

theorem splitOnChar_append_sep (sep : Char) (xs : List Char) :
    splitOnChar sep (xs ++ [sep]) = splitOnChar sep xs ++ [[]] := by
  induction xs with
  | nil => simp [splitOnChar]
  | cons c cs ih =>
    simp only [List.cons_append, splitOnChar, List.append_eq]
    by_cases hc : c = sep
    · rw [if_pos hc, if_pos hc, ih]
      rfl
    · rw [if_neg hc, if_neg hc, ih]
      obtain ⟨a, t, hat⟩ := List.exists_cons_of_ne_nil (splitOnChar_ne_nil sep cs)
      rw [hat]
      rfl

theorem splitOnChar_eq_single (sep : Char) (o : List Char) (h : sep ∉ o) :
    splitOnChar sep o = [o] := by
  induction o with
  | nil => simp [splitOnChar]
  | cons c cs ih =>
    simp only [List.mem_cons, not_or] at h
    simp only [splitOnChar, ih h.2]
    rw [if_neg (fun hc => h.1 hc.symm)]

theorem not_mem_splitOnChar (sep : Char) (s : List Char) :
    ∀ x ∈ splitOnChar sep s, sep ∉ x := by
  induction s with
  | nil =>
    intro x hx
    simp [splitOnChar] at hx
    simp [hx]
  | cons c cs ih =>
    intro x hx
    simp only [splitOnChar] at hx
    by_cases hc : c = sep
    · rw [if_pos hc] at hx
      rcases List.mem_cons.mp hx with h1 | h2
      · simp [h1]
      · exact ih x h2
    · rw [if_neg hc] at hx
      obtain ⟨a, t, hat⟩ := List.exists_cons_of_ne_nil (splitOnChar_ne_nil sep cs)
      rw [hat] at hx
      rcases List.mem_cons.mp hx with h1 | h2
      · subst h1
        intro hmem
        rcases List.mem_cons.mp hmem with h3 | h4
        · exact hc h3.symm
        · exact ih a (hat ▸ List.mem_cons_self a t) h4
      · exact ih x (by rw [hat]; exact List.mem_cons_of_mem a h2)

theorem pathComps_append_slash (p : List Char) :
    pathComps (p ++ ['/']) = pathComps p := by
  unfold pathComps
  rw [splitOnChar_append_sep, List.filter_append]
  simp

theorem pathComps_append_slashes (p : List Char) (k : Nat) :
    pathComps (p ++ List.replicate k '/') = pathComps p := by
  induction k with
  | zero => simp
  | succ n ih =>
    rw [List.replicate_succ', ← List.append_assoc, pathComps_append_slash, ih]

theorem pathComps_single (o : List Char) (hs : '/' ∉ o) (ho : o ≠ []) :
    pathComps o = [o] := by
  unfold pathComps
  rw [splitOnChar_eq_single '/' o hs]
  simp [ho]

/-! ## Lemmas: trimming -/

theorem head_dropWhile_ne (c : Char) (s : List Char) :
    ∀ d, (s.dropWhile (fun x => x = c)).head? = some d → d ≠ c := by
  induction s with
  | nil => simp
  | cons a t ih =>
    intro d hd
    rw [List.dropWhile_cons] at hd
    by_cases ha : a = c
    · exact ih d (by simpa [ha] using hd)
    · simp [ha] at hd
      simp [← hd, ha]

theorem mem_dropWhile (p : Char → Bool) (s : List Char) :
    ∀ x ∈ s.dropWhile p, x ∈ s :=
  fun _ hx => (List.dropWhile_sublist p).mem hx

theorem dropWhile_getLast (p : Char → Bool) (l : List Char) (x : Char)
    (hl : l.getLast? = some x) (hx : p x = false) :
    l.dropWhile p ≠ [] ∧ (l.dropWhile p).getLast? = some x := by
  induction l with
  | nil => simp at hl
  | cons a t ih =>
    cases t with
    | nil =>
      simp only [List.getLast?_singleton, Option.some_inj] at hl
      subst hl
      rw [List.dropWhile_cons, if_neg (by simp [hx])]
      simp
    | cons b t' =>
      rw [List.getLast?_cons_cons] at hl
      rw [List.dropWhile_cons]
      by_cases ha : p a = true
      · rw [if_pos ha]
        exact ih hl
      · rw [if_neg ha]
        refine ⟨by simp, ?_⟩
        rw [List.getLast?_cons_cons]
        exact hl

theorem dropWhile_append_of_exists (p : Char → Bool) (l₁ l₂ : List Char)
    (h : ∃ x ∈ l₁, p x = false) :
    (l₁ ++ l₂).dropWhile p = l₁.dropWhile p ++ l₂ := by
  induction l₁ with
  | nil =>
    obtain ⟨x, hx, _⟩ := h
    simp at hx
  | cons a t ih =>
    rw [List.cons_append, List.dropWhile_cons, List.dropWhile_cons]
    by_cases ha : p a = true
    · rw [if_pos ha, if_pos ha]
      refine ih ?_
      obtain ⟨x, hx, hpx⟩ := h
      rcases List.mem_cons.mp hx with h1 | h2
      · rw [h1] at hpx; rw [hpx] at ha; simp at ha
      · exact ⟨x, h2, hpx⟩
    · rw [if_neg ha, if_neg ha, List.cons_append]

theorem dropWhile_fixed (p : Char → Bool) (s : List Char)
    (h : ∀ d, s.head? = some d → p d = false) : s.dropWhile p = s := by
  cases s with
  | nil => simp
  | cons a t =>
    rw [List.dropWhile_cons, if_neg]
    simp [h a rfl]

theorem trimLeftChar_head (c : Char) (s : List Char) :
    ∀ d, (trimLeftChar c s).head? = some d → d ≠ c :=
  head_dropWhile_ne c s

theorem trimLeftChar_fixed (c : Char) (s : List Char)
    (h : ∀ d, s.head? = some d → d ≠ c) : trimLeftChar c s = s := by
  refine dropWhile_fixed _ s (fun d hd => ?_)
  simp [h d hd]

theorem trimRightChar_getLast (c : Char) (s : List Char) :
    ∀ d, (trimRightChar c s).getLast? = some d → d ≠ c := by
  intro d hd
  unfold trimRightChar at hd
  rw [List.getLast?_reverse] at hd
  exact trimLeftChar_head c s.reverse d hd

theorem trimRightChar_fixed (c : Char) (s : List Char)
    (h : ∀ d, s.getLast? = some d → d ≠ c) : trimRightChar c s = s := by
  unfold trimRightChar
  rw [trimLeftChar_fixed c s.reverse (fun d hd => h d (by rwa [List.head?_reverse] at hd))]
  exact s.reverse_reverse

theorem mem_trimRightChar (c : Char) (s : List Char) :
    ∀ x ∈ trimRightChar c s, x ∈ s := by
  intro x hx
  unfold trimRightChar trimLeftChar at hx
  rw [List.mem_reverse] at hx
  have := mem_dropWhile _ s.reverse x hx
  rwa [List.mem_reverse] at this

theorem trimRightChar_length (c : Char) (s : List Char) :
    (trimRightChar c s).length ≤ s.length := by
  unfold trimRightChar trimLeftChar
  rw [List.length_reverse]
  calc (s.reverse.dropWhile _).length ≤ s.reverse.length :=
        (List.dropWhile_sublist _).length_le
    _ = s.length := s.length_reverse

theorem trimRightChar_head (c : Char) (s : List Char) (hs : s ≠ [])
    (h : ∀ d, s.head? = some d → d ≠ c) :
    trimRightChar c s ≠ [] ∧ (trimRightChar c s).head? = s.head? := by
  obtain ⟨a, t, rfl⟩ := List.exists_cons_of_ne_nil hs
  have ha : a ≠ c := h a rfl
  have hlast : (a :: t).reverse.getLast? = some a := by
    rw [List.getLast?_reverse]; rfl
  have hdrop := dropWhile_getLast (fun x => x = c) (a :: t).reverse a hlast (by simp [ha])
  unfold trimRightChar trimLeftChar
  constructor
  · intro hemp
    exact hdrop.1 (by rwa [List.reverse_eq_nil_iff] at hemp)
  · rw [List.head?_reverse, hdrop.2]
    rfl

theorem trimRightChar_append (c : Char) (a b : List Char)
    (h : ∃ x ∈ b, (x = c) = False) :
    trimRightChar c (a ++ b) = a ++ trimRightChar c b := by
  unfold trimRightChar trimLeftChar
  rw [List.reverse_append, dropWhile_append_of_exists, List.reverse_append,
    List.reverse_reverse]
  obtain ⟨x, hx, hxc⟩ := h
  exact ⟨x, List.mem_reverse.mpr hx, by simp [hxc]⟩

theorem trimChar_head (c : Char) (s : List Char) :
    ∀ d, (trimChar c s).head? = some d → d ≠ c := by
  intro d hd
  unfold trimChar at hd
  by_cases hm : trimLeftChar c s = []
  · rw [hm] at hd
    simp [trimRightChar, trimLeftChar] at hd
  · have hh := trimRightChar_head c (trimLeftChar c s) hm (trimLeftChar_head c s)
    rw [hh.2] at hd
    exact trimLeftChar_head c s d hd

theorem trimChar_getLast (c : Char) (s : List Char) :
    ∀ d, (trimChar c s).getLast? = some d → d ≠ c := by
  intro d hd
  exact trimRightChar_getLast c (trimLeftChar c s) d hd

theorem mem_trimChar (c : Char) (s : List Char) :
    ∀ x ∈ trimChar c s, x ∈ s := by
  intro x hx
  have h1 := mem_trimRightChar c (trimLeftChar c s) x hx
  exact mem_dropWhile _ s x h1

theorem trimChar_fixed (c : Char) (s : List Char)
    (hh : ∀ d, s.head? = some d → d ≠ c) (hl : ∀ d, s.getLast? = some d → d ≠ c) :
    trimChar c s = s := by
  unfold trimChar
  rw [trimLeftChar_fixed c s hh, trimRightChar_fixed c s hl]

/-! ## Lemmas: characters -/

theorem volSanitize_eq_map (s : List Char) : volSanitize s = s.map sanChar := by
  unfold volSanitize replaceAllChar
  simp only [List.map_map]
  refine List.map_congr_left (fun c _ => ?_)
  simp only [Function.comp_apply, sanChar, replChar]

theorem toNat_ofNat_valid (n : Nat) (h : n < 55296) : (Char.ofNat n).toNat = n := by
  have hv : n.isValidChar := Or.inl h
  simp [Char.ofNat, hv, Char.ofNatAux, Char.toNat, UInt32.toNat]

theorem goodChar_ofNat (n : Nat) (h97 : 97 ≤ n) (h122 : n ≤ 122) :
    goodChar (Char.ofNat n) = true := by
  have ht : (Char.ofNat n).toNat = n := toNat_ofNat_valid n (by omega)
  have hne : ∀ c : Char, c.toNat ≠ n → Char.ofNat n ≠ c := by
    intro c hc he
    exact hc (by rw [← he, ht])
  have hb : badChar (Char.ofNat n) = false := by
    simp only [badChar, Bool.or_eq_false_iff, beq_eq_false_iff_ne, ne_eq]
    refine ⟨⟨⟨⟨?_, ?_⟩, ?_⟩, ?_⟩, ?_⟩ <;>
      [exact hne ':' (by rw [show (':' : Char).toNat = 58 from rfl]; omega);
       exact hne '/' (by rw [show ('/' : Char).toNat = 47 from rfl]; omega);
       exact hne '\\' (by rw [show ('\\' : Char).toNat = 92 from rfl]; omega);
       exact hne '.' (by rw [show ('.' : Char).toNat = 46 from rfl]; omega);
       exact hne '_' (by rw [show ('_' : Char).toNat = 95 from rfl]; omega)]
  have hu : upperChar (Char.ofNat n) = false := by
    unfold upperChar
    rw [ht]
    simp only [Bool.and_eq_false_iff, decide_eq_false_iff_not]
    right
    omega
  simp [goodChar, hb, hu]

theorem replChain_fixed (c : Char) (hb : badChar c = false) :
    replChar '_' (replChar '.' (replChar '\\' (replChar '/' (replChar ':' c)))) = c := by
  simp only [badChar, Bool.or_eq_false_iff, beq_eq_false_iff_ne, ne_eq] at hb
  obtain ⟨⟨⟨⟨n1, n2⟩, n3⟩, n4⟩, n5⟩ := hb
  simp [replChar, n1, n2, n3, n4, n5]

theorem goodChar_sanChar (c : Char) : goodChar (sanChar c) = true := by
  by_cases hb : badChar c = true
  · simp only [badChar, Bool.or_eq_true, beq_iff_eq] at hb
    rcases hb with ((((h | h) | h) | h) | h) <;> subst h <;> decide
  · rw [Bool.not_eq_true] at hb
    rw [sanChar, replChain_fixed c hb]
    unfold asciiLower
    by_cases hup : 65 ≤ c.toNat ∧ c.toNat ≤ 90
    · rw [if_pos hup]
      obtain ⟨hA, hB⟩ := hup
      exact goodChar_ofNat (c.toNat + 32) (by omega) (by omega)
    · rw [if_neg hup]
      have hu : upperChar c = false := by
        unfold upperChar
        by_cases h65 : 65 ≤ c.toNat
        · have h90 : ¬c.toNat ≤ 90 := fun h => hup ⟨h65, h⟩
          simp [h90]
        · simp [h65]
      simp [goodChar, hb, hu]

theorem sanChar_fixed (c : Char) (h : goodChar c = true) : sanChar c = c := by
  simp only [goodChar, Bool.and_eq_true, Bool.not_eq_true'] at h
  obtain ⟨hb, hu⟩ := h
  rw [sanChar, replChain_fixed c hb]
  unfold asciiLower
  rw [if_neg]
  intro hcon
  simp only [upperChar, Bool.and_eq_false_iff, decide_eq_false_iff_not] at hu
  rcases hu with h | h
  · exact h hcon.1
  · exact h hcon.2

theorem dashOrDigit_head (l : List Char) (d : Char) (hd : l.head? = some d) :
    dashOrDigit l = (d == '-' || (decide ('0' ≤ d) && decide (d ≤ '9'))) := by
  cases l with
  | nil => simp at hd
  | cons a t =>
    simp only [List.head?_cons, Option.some_inj] at hd
    subst hd
    rfl

theorem head?_take_pos (l : List Char) (n : Nat) (hn : 0 < n) :
    (l.take n).head? = l.head? := by
  cases l with
  | nil => simp
  | cons a t =>
    cases n with
    | zero => omega
    | succ m => simp

/-! ## Lemmas: filepath.Clean -/

theorem clean_fixed (o : List Char) (hs : '/' ∉ o) (hd : '.' ∉ o) (ho : o ≠ []) :
    clean o = o := by
  unfold clean
  rw [if_neg ho]
  have hroot : (o.head? == some '/') = false := by
    obtain ⟨a, t, rfl⟩ := List.exists_cons_of_ne_nil ho
    have ha : a ≠ '/' := fun h => hs (h ▸ List.mem_cons_self a t)
    simp [ha]
  have hdot : o ≠ chars "." := by
    intro he
    exact hd (by rw [he]; decide)
  have hddot : o ≠ chars ".." := by
    intro he
    exact hd (by rw [he]; decide)
  rw [hroot, pathComps_single o hs ho]
  simp only [List.foldl_cons, List.foldl_nil, cleanStep, if_neg hdot, if_neg hddot,
    Bool.false_eq_true, if_false, List.nil_append]
  simp [joinSep, ho]

theorem clean_append_slashes (p : List Char) (k : Nat) (hp : p ≠ []) :
    clean (p ++ List.replicate k '/') = clean p := by
  obtain ⟨a, p', rfl⟩ := List.exists_cons_of_ne_nil hp
  unfold clean
  have hne1 : (a :: p') ++ List.replicate k '/' ≠ [] := by simp
  have hne2 : a :: p' ≠ [] := by simp
  have h1 : ((a :: p') ++ List.replicate k '/').head? = (a :: p').head? := by simp
  have h2 : pathComps ((a :: p') ++ List.replicate k '/') = pathComps (a :: p') :=
    pathComps_append_slashes _ k
  rw [if_neg hne1, if_neg hne2, h1, h2]

theorem clean_slashes (k : Nat) : clean (List.replicate (k + 1) '/') = chars "/" := by
  unfold clean
  rw [if_neg (by simp)]
  have hroot : ((List.replicate (k + 1) '/').head? == some '/') = true := by
    rw [List.replicate_succ]
    simp
  have hcomp : pathComps (List.replicate (k + 1) '/') = [] := by
    have h := pathComps_append_slashes [] (k + 1)
    rw [List.nil_append] at h
    rw [h]
    decide
  rw [hroot, hcomp]
  simp [joinSep]

/-! ## Lemmas: the volume-name invariant -/

theorem goodName_finish (t p8 q : List Char)
    (tchars : ∀ c ∈ t, goodChar c = true)
    (thead : ∀ d, t.head? = some d → d ≠ '-')
    (tlast : ∀ d, t.getLast? = some d → d ≠ '-')
    (hp8def : p8 = if dashOrDigit t then chars "vol-" ++ t else t)
    (hqdef : q = if 63 < p8.length then trimRightChar '-' (p8.take 63) else p8) :
    goodName (if q = [] then chars "volume" else q) := by
  have hp8chars : ∀ c ∈ p8, goodChar c = true := by
    intro c hc
    rw [hp8def] at hc
    by_cases hdd : dashOrDigit t = true
    · rw [if_pos hdd] at hc
      rcases List.mem_append.mp hc with h | h
      · fin_cases h <;> decide
      · exact tchars c h
    · rw [if_neg hdd] at hc
      exact tchars c hc
  have hp8head : ∀ d, p8.head? = some d →
      d ≠ '-' ∧ (decide ('0' ≤ d) && decide (d ≤ '9')) = false := by
    intro d hd
    rw [hp8def] at hd
    by_cases hdd : dashOrDigit t = true
    · rw [if_pos hdd] at hd
      have hv : (chars "vol-" ++ t).head? = some 'v' := rfl
      rw [hv] at hd
      injection hd with hd
      subst hd
      exact ⟨by decide, by decide⟩
    · rw [if_neg hdd] at hd
      rw [Bool.not_eq_true] at hdd
      rw [dashOrDigit_head t d hd] at hdd
      simp only [Bool.or_eq_false_iff, beq_eq_false_iff_ne, ne_eq] at hdd
      exact ⟨hdd.1, hdd.2⟩
  have hp8last : ∀ d, p8.getLast? = some d → d ≠ '-' := by
    intro d hd
    rw [hp8def] at hd
    by_cases hdd : dashOrDigit t = true
    · rw [if_pos hdd] at hd
      have htne : t ≠ [] := by
        intro h
        rw [h] at hdd
        simp [dashOrDigit] at hdd
      rw [List.getLast?_append_of_ne_nil _ htne] at hd
      exact tlast d hd
    · rw [if_neg hdd] at hd
      exact tlast d hd
  by_cases hq : 63 < p8.length
  · have hp8ne : p8 ≠ [] := by
      intro h
      rw [h] at hq
      simp at hq
    obtain ⟨h0, hh0⟩ : ∃ d, p8.head? = some d := by
      obtain ⟨a, u, hau⟩ := List.exists_cons_of_ne_nil hp8ne
      exact ⟨a, by rw [hau]; rfl⟩
    obtain ⟨hh0d, hh0dig⟩ := hp8head h0 hh0
    have htake : (p8.take 63).head? = some h0 := by
      rw [head?_take_pos _ 63 (by omega), hh0]
    have htne : p8.take 63 ≠ [] := by
      intro h
      have h' := congrArg List.head? h
      rw [htake] at h'
      simp at h'
    have hTR := trimRightChar_head '-' (p8.take 63) htne
      (fun d hd => by
        rw [htake] at hd
        injection hd with hd
        subst hd
        exact hh0d)
    rw [if_pos hq] at hqdef
    subst hqdef
    rw [if_neg hTR.1]
    refine ⟨hTR.1, ?_, ?_, ?_, ?_⟩
    · calc (trimRightChar '-' (p8.take 63)).length
          ≤ (p8.take 63).length := trimRightChar_length _ _
        _ ≤ 63 := by
            rw [List.length_take]
            exact Nat.min_le_left _ _
    · intro c hc
      exact hp8chars c (List.mem_of_mem_take (mem_trimRightChar _ _ c hc))
    · rw [dashOrDigit_head _ h0 (by rw [hTR.2, htake])]
      simp only [Bool.or_eq_false_iff]
      exact ⟨by simp [hh0d], hh0dig⟩
    · intro hlast
      exact trimRightChar_getLast '-' (p8.take 63) '-' hlast rfl
  · rw [if_neg hq] at hqdef
    rw [hqdef]
    by_cases hp8nil : p8 = []
    · rw [if_pos hp8nil]
      unfold goodName
      decide
    · rw [if_neg hp8nil]
      obtain ⟨a, u, hau⟩ := List.exists_cons_of_ne_nil hp8nil
      obtain ⟨had, hadig⟩ := hp8head a (by rw [hau]; rfl)
      refine ⟨hp8nil, by omega, hp8chars, ?_, ?_⟩
      · rw [dashOrDigit_head p8 a (by rw [hau]; rfl)]
        simp only [Bool.or_eq_false_iff]
        exact ⟨by simp [had], hadig⟩
      · intro hlast
        exact hp8last '-' hlast rfl

theorem goodName_pathToVolumeName (p : List Char) : goodName (pathToVolumeName p) := by
  have tchars : ∀ c ∈ volTrimmed p, goodChar c = true := by
    intro c hc
    have h1 := mem_trimChar '-' _ c hc
    rw [volSanitize_eq_map] at h1
    obtain ⟨d, _, rfl⟩ := List.mem_map.mp h1
    exact goodChar_sanChar d
  have thead : ∀ d, (volTrimmed p).head? = some d → d ≠ '-' :=
    trimChar_head '-' (volSanitize (clean p))
  have tlast : ∀ d, (volTrimmed p).getLast? = some d → d ≠ '-' :=
    trimChar_getLast '-' (volSanitize (clean p))
  exact goodName_finish (volTrimmed p) _ _ tchars thead tlast rfl rfl

theorem pathToVolumeName_fixed (o : List Char) (h : goodName o) :
    pathToVolumeName o = o := by
  obtain ⟨hne, hlen, hchars, hdd, hlast⟩ := h
  have hslash : '/' ∉ o := by
    intro hm
    have := hchars '/' hm
    simp [goodChar, badChar] at this
  have hdot : '.' ∉ o := by
    intro hm
    have := hchars '.' hm
    simp [goodChar, badChar] at this
  have hclean : clean o = o := clean_fixed o hslash hdot hne
  have hsan : volSanitize o = o := by
    rw [volSanitize_eq_map]
    have : ∀ c ∈ o, sanChar c = c := fun c hc => sanChar_fixed c (hchars c hc)
    rw [List.map_congr_left this]
    exact List.map_id' o
  have htrim : trimChar '-' o = o := by
    refine trimChar_fixed '-' o ?_ ?_
    · intro d hd
      rw [dashOrDigit_head o d hd] at hdd
      simp only [Bool.or_eq_false_iff, beq_eq_false_iff_ne, ne_eq] at hdd
      exact hdd.1
    · intro d hd he
      rw [he] at hd
      exact hlast hd
  unfold pathToVolumeName volTrimmed
  rw [hclean, hsan, htrim]
  have hpfix : (if dashOrDigit o then chars "vol-" ++ o else o) = o := by
    rw [if_neg]
    simp [hdd]
  have hqfix : (if 63 < o.length then trimRightChar '-' (o.take 63) else o) = o := by
    rw [if_neg]
    omega
  simp only [hpfix, hqfix]
  rw [if_neg hne]

theorem pathToVolumeName_slashes (p : List Char) (k : Nat) :
    pathToVolumeName (p ++ List.replicate k '/') = pathToVolumeName p := by
  by_cases hp : p = []
  · subst hp
    rw [List.nil_append]
    cases k with
    | zero => rfl
    | succ j =>
      have h1 : pathToVolumeName (List.replicate (j + 1) '/') = chars "volume" := by
        unfold pathToVolumeName volTrimmed
        rw [clean_slashes j]
        decide
      have h2 : pathToVolumeName ([] : List Char) = chars "volume" := by decide
      rw [h1, h2]
  · unfold pathToVolumeName volTrimmed
    rw [clean_append_slashes p k hp]

theorem pathToVolumeName_vol_lead (p : List Char)
    (hdd : dashOrDigit (volTrimmed p) = true) :
    ∃ rest, pathToVolumeName p = chars "vol-" ++ rest := by
  have htne : volTrimmed p ≠ [] := by
    intro h
    rw [h] at hdd
    simp [dashOrDigit] at hdd
  obtain ⟨h0, hh0⟩ : ∃ d, (volTrimmed p).head? = some d := by
    obtain ⟨a, u, hau⟩ := List.exists_cons_of_ne_nil htne
    exact ⟨a, by rw [hau]; rfl⟩
  have h0dash : h0 ≠ '-' := trimChar_head '-' (volSanitize (clean p)) h0 hh0
  have hps : (if dashOrDigit (volTrimmed p) then chars "vol-" ++ volTrimmed p
      else volTrimmed p) = chars "vol-" ++ volTrimmed p := if_pos hdd
  by_cases hq : 63 < (chars "vol-" ++ volTrimmed p).length
  · have hsplit : (chars "vol-" ++ volTrimmed p).take 63 =
        chars "vol-" ++ (volTrimmed p).take 59 := by
      rw [List.take_append_eq_append_take, List.take_of_length_le (by decide),
        show 63 - (chars "vol-").length = 59 from rfl]
    have hmem : h0 ∈ (volTrimmed p).take 59 := by
      refine List.mem_of_mem_head? (l := (volTrimmed p).take 59) ?_
      rw [head?_take_pos _ 59 (by omega), hh0]
      rfl
    have htr : trimRightChar '-' (chars "vol-" ++ (volTrimmed p).take 59) =
        chars "vol-" ++ trimRightChar '-' ((volTrimmed p).take 59) :=
      trimRightChar_append '-' _ _ ⟨h0, hmem, eq_false h0dash⟩
    refine ⟨trimRightChar '-' ((volTrimmed p).take 59), ?_⟩
    unfold pathToVolumeName
    simp only [hps]
    rw [if_pos hq, hsplit, htr,
      if_neg (by rw [show chars "vol-" = ['v', 'o', 'l', '-'] from rfl]; simp)]
  · refine ⟨volTrimmed p, ?_⟩
    unfold pathToVolumeName
    simp only [hps]
    rw [if_neg hq,
      if_neg (by rw [show chars "vol-" = ['v', 'o', 'l', '-'] from rfl]; simp)]

theorem pathToVolumeName_fallback (p : List Char) (h : volTrimmed p = []) :
    pathToVolumeName p = chars "volume" := by
  unfold pathToVolumeName
  simp only [h]
  decide

/-! ## Lemmas: environment normalization -/

theorem findIdx_eq_append (v : List Char) :
    ∀ (k : List Char) (i : Nat), (∀ c ∈ k, (c = '=') = False) →
      List.findIdx? (fun c => c = '=') (k ++ '=' :: v) i = some (i + k.length) := by
  intro k
  induction k with
  | nil =>
    intro i _
    simp [List.findIdx?_cons]
  | cons c k' ih =>
    intro i hk
    have hc : (c = '=') = False := hk c (List.mem_cons_self c k')
    rw [List.cons_append, List.findIdx?_cons, if_neg (by simp [hc])]
    rw [ih (i + 1) (fun d hd => hk d (List.mem_cons_of_mem c hd))]
    congr 1
    simp [List.length_cons]
    omega

theorem findEquals_append (k v : List Char) (hk : '=' ∉ k) :
    findEquals (k ++ '=' :: v) = (k.length : Int) := by
  unfold findEquals
  rw [findIdx_eq_append v k 0 (fun c hc => by
    simp only [eq_iff_iff, iff_false]
    intro he
    exact hk (he ▸ hc))]
  simp

theorem findEquals_none (s : List Char) (h : '=' ∉ s) : findEquals s = -1 := by
  unfold findEquals
  rw [List.findIdx?_eq_none_iff.mpr (fun x hx => by
    simp only [decide_eq_false_iff_not]
    intro he
    exact h (he ▸ hx))]

theorem envSeqStep_drop (m : List (List Char × List Char)) (s : List Char)
    (h : '=' ∉ s) : envSeqStep m s = m := by
  unfold envSeqStep
  rw [findEquals_none s h]
  rfl

theorem envSeqStep_insert (m : List (List Char × List Char)) (k v : List Char)
    (hk : k ≠ []) (hke : '=' ∉ k) :
    envSeqStep m (k ++ '=' :: v) = envInsert m k v := by
  unfold envSeqStep
  rw [findEquals_append k v hke]
  have hkpos : (0 : Int) < (k.length : Int) := by
    have : k.length ≠ 0 := fun h => hk (List.length_eq_zero.mp h)
    omega
  rw [if_pos hkpos]
  have htoNat : ((k.length : Int)).toNat = k.length := Int.toNat_natCast _
  rw [htoNat]
  congr 1
  · exact List.take_left k ('=' :: v)
  · rw [show k ++ '=' :: v = (k ++ ['=']) ++ v by simp,
      show k.length + 1 = (k ++ ['=']).length by simp]
    exact List.drop_left _ _

theorem envFold_seq_eq (bs : List (List Char × List Char))
    (hbs : ∀ p ∈ bs, p.1 ≠ [] ∧ '=' ∉ p.1) :
    ∀ m, List.foldl
        (fun env p => match p.2 with | GoVal.vstr s => envInsert env p.1 s | _ => env)
        m (bs.map (fun p => (p.1, GoVal.vstr p.2))) =
      List.foldl
        (fun env it => match it with | GoVal.vstr s => envSeqStep env s | _ => env)
        m (bs.map (fun p => GoVal.vstr (p.1 ++ '=' :: p.2))) := by
  induction bs with
  | nil => intro m; rfl
  | cons b bs' ih =>
    intro m
    obtain ⟨hb1, hb2⟩ := hbs b (List.mem_cons_self b bs')
    simp only [List.map_cons, List.foldl_cons]
    rw [envSeqStep_insert m b.1 b.2 hb1 hb2]
    exact ih (fun p hp => hbs p (List.mem_cons_of_mem b hp)) _

theorem envFold_mapI_eq (bs : List (List Char × List Char)) :
    ∀ m, List.foldl
        (fun env p =>
          match p.1, p.2 with
          | GoVal.vstr k, GoVal.vstr v => envInsert env k v
          | _, _ => env)
        m (bs.map (fun p => (GoVal.vstr p.1, GoVal.vstr p.2))) =
      List.foldl
        (fun env p => match p.2 with | GoVal.vstr s => envInsert env p.1 s | _ => env)
        m (bs.map (fun p => (p.1, GoVal.vstr p.2))) := by
  induction bs with
  | nil => intro m; rfl
  | cons b bs' ih =>
    intro m
    simp only [List.map_cons, List.foldl_cons]
    exact ih _

/-! ## Lemmas: volume-spec isolation -/

theorem windowsVolPat_shape (vol : List Char) (h : windowsVolPat vol = true) :
    ∃ a c rest, vol = a :: ':' :: c :: rest ∧ (c = '/' ∨ c = '\\') := by
  match vol with
  | [] => simp [windowsVolPat] at h
  | [a] => simp [windowsVolPat] at h
  | [a, b] => simp [windowsVolPat] at h
  | a :: b :: c :: rest =>
    simp only [windowsVolPat, List.length_cons, List.getElem?_cons_succ,
      List.getElem?_cons_zero, Bool.and_eq_true, Bool.or_eq_true, beq_iff_eq,
      Option.some.injEq, decide_eq_true_eq] at h
    exact ⟨a, c, rest, by rw [h.1.2], h.2⟩

theorem driveLetterPat_shape (s : List Char) (h : driveLetterPat s = true) :
    ∃ a c rest, s = a :: ':' :: c :: rest ∧ (c = '/' ∨ c = '\\') := by
  match s with
  | [] => simp [driveLetterPat] at h
  | [a] => simp [driveLetterPat] at h
  | [a, b] => simp [driveLetterPat] at h
  | a :: b :: c :: rest =>
    simp only [driveLetterPat, Bool.and_eq_true, Bool.or_eq_true, beq_iff_eq] at h
    exact ⟨a, c, rest, by rw [h.1], h.2⟩

theorem driveLetterPat_cons (a c : Char) (rest : List Char) (hc : c = '/' ∨ c = '\\') :
    driveLetterPat (a :: ':' :: c :: rest) = true := by
  rcases hc with rfl | rfl <;> simp [driveLetterPat]

theorem isolateSource_windows (vol : List Char) (idx : Nat)
    (hw : windowsVolPat vol = true)
    (hidx : (vol.drop 3).findIdx? (fun c => c = ':') = some idx) :
    isolateSource vol = some (vol.take (3 + idx), vol.drop (3 + idx + 1)) := by
  unfold isolateSource
  rw [if_pos hw, hidx]

theorem isolateSource_windows_none (vol : List Char)
    (hw : windowsVolPat vol = true)
    (hidx : (vol.drop 3).findIdx? (fun c => c = ':') = none) :
    isolateSource vol = none := by
  unfold isolateSource
  rw [if_pos hw, hidx]

theorem isolateSource_plain (vol : List Char) (hw : windowsVolPat vol = false) :
    isolateSource vol =
      match splitOnChar ':' vol with
      | src :: mp :: _ => some (src, mp)
      | _ => none := by
  unfold isolateSource
  rw [if_neg (by simp [hw])]

/-- Any isolated source either contains no colon at all (plain split) or
begins with a full drive-letter pattern (Windows branch). -/
theorem isolateSource_src (vol src mp : List Char)
    (h : isolateSource vol = some (src, mp)) :
    ':' ∉ src ∨ driveLetterPat src = true := by
  by_cases hw : windowsVolPat vol = true
  · right
    obtain ⟨a, c, rest, hvol, hc⟩ := windowsVolPat_shape vol hw
    unfold isolateSource at h
    rw [if_pos hw] at h
    cases hidx : (vol.drop 3).findIdx? (fun c => c = ':') with
    | none => rw [hidx] at h; simp at h
    | some idx =>
      rw [hidx] at h
      simp only [Option.some.injEq, Prod.mk.injEq] at h
      have hsrc : src = vol.take (3 + idx) := h.1.symm
      rw [hvol] at hsrc
      simp only [show 3 + idx = idx + 3 from by omega, List.take_succ_cons] at hsrc
      rw [hsrc]
      exact driveLetterPat_cons a c _ hc
  · left
    rw [isolateSource_plain vol (by simpa using hw)] at h
    cases hsp : splitOnChar ':' vol with
    | nil => exact absurd hsp (splitOnChar_ne_nil ':' vol)
    | cons x u =>
      cases u with
      | nil => rw [hsp] at h; simp at h
      | cons y w =>
        rw [hsp] at h
        simp only [Option.some.injEq, Prod.mk.injEq] at h
        have hx : src ∈ splitOnChar ':' vol := by
          rw [hsp, ← h.1]
          exact List.mem_cons_self x (y :: w)
        exact not_mem_splitOnChar ':' vol src hx

/-- `isHostPath` as a single disjunction. -/
theorem isHostPath_eq_or (s : List Char) :
    isHostPath s =
      (hasLead (chars "/") s || hasLead (chars "./") s || hasLead (chars "../") s ||
        (decide (2 ≤ s.length) && s[1]? == some ':') ||
        s.contains '/' || s.contains '\\') := by
  unfold isHostPath
  by_cases h1 : hasLead (chars "/") s = true <;>
    by_cases h2 : hasLead (chars "./") s = true <;>
    by_cases h3 : hasLead (chars "../") s = true <;>
    by_cases h4 : (decide (2 ≤ s.length) && s[1]? == some ':') = true <;>
    by_cases h5 : s.contains '/' = true <;>
    by_cases h6 : s.contains '\\' = true <;>
    simp [h1, h2, h3, h4, h5, h6]

theorem isHostPath_matches_claim (src : List Char)
    (h : ':' ∉ src ∨ driveLetterPat src = true) :
    isHostPath src = hostPathClaim src := by
  rcases h with hno | hdr
  · have hmid : (decide (2 ≤ src.length) && src[1]? == some ':') = false := by
      by_cases hm : (decide (2 ≤ src.length) && src[1]? == some ':') = true
      · exfalso
        simp only [Bool.and_eq_true, beq_iff_eq, decide_eq_true_eq] at hm
        exact hno (List.getElem?_mem hm.2)
      · simpa using hm
    have hdrv : driveLetterPat src = false := by
      by_cases hd : driveLetterPat src = true
      · exfalso
        obtain ⟨a, c, rest, hsrc, _⟩ := driveLetterPat_shape src hd
        exact hno (by rw [hsrc]; simp)
      · simpa using hd
    rw [isHostPath_eq_or]
    unfold hostPathClaim
    rw [hmid, hdrv]
  · obtain ⟨a, c, rest, hsrc, hc⟩ := driveLetterPat_shape src hdr
    have hmid : (decide (2 ≤ src.length) && src[1]? == some ':') = true := by
      rw [hsrc]
      simp only [List.length_cons, List.getElem?_cons_succ, List.getElem?_cons_zero,
        Bool.and_eq_true, beq_iff_eq, decide_eq_true_eq]
      exact ⟨by omega, trivial⟩
    rw [isHostPath_eq_or]
    unfold hostPathClaim
    rw [hmid, hdr]

/-! ## Lemmas: parseVolume and the generators -/

theorem parseVolume_of_isolate (vol src mp : List Char)
    (h : isolateSource vol = some (src, mp)) :
    (parseVolume vol).mountPath = mp ∧ (parseVolume vol).hostPath = src := by
  unfold parseVolume
  rw [h]
  by_cases hp : isHostPath src = true <;> simp [hp]

theorem parseVolume_named (vol src mp : List Char)
    (h : isolateSource vol = some (src, mp)) (hn : isHostPath src = false) :
    parseVolume vol = ⟨mp, src, src, false⟩ := by
  unfold parseVolume
  rw [h]
  simp [hn]

theorem parseVolume_fallback (vol : List Char) (h : isolateSource vol = none) :
    parseVolume vol = ⟨vol, chars "unnamed-vol", [], false⟩ := by
  unfold parseVolume
  rw [h]

theorem splitOnChar_short (vol : List Char)
    (h : (splitOnChar ':' vol).length < 2) :
    ∃ x, splitOnChar ':' vol = [x] := by
  cases hsp : splitOnChar ':' vol with
  | nil => exact absurd hsp (splitOnChar_ne_nil ':' vol)
  | cons x u =>
    cases u with
    | nil => exact ⟨x, rfl⟩
    | cons y w =>
      rw [hsp] at h
      simp at h
      omega

theorem generateContainer_ok (nm : List Char) (sv : Service) (vols : List VolumeInfo)
    (h : sv.image ≠ []) :
    ∃ txt vols2, generateContainer nm sv vols = Except.ok (txt, vols2) := by
  unfold generateContainer
  rw [if_pos h]
  exact ⟨_, _, rfl⟩

theorem generateContainer_err (nm : List Char) (sv : Service) (vols : List VolumeInfo)
    (h : sv.image = []) :
    generateContainer nm sv vols = Except.error (imageErr nm) := by
  unfold generateContainer
  rw [if_neg (by simp [h])]

theorem genServices_ok (svcs : List (List Char × Service))
    (h : ∀ p ∈ svcs, p.2.image ≠ []) :
    ∀ vols, ∃ txt vols2, genServices svcs vols = Except.ok (txt, vols2) := by
  induction svcs with
  | nil => exact fun vols => ⟨[], vols, rfl⟩
  | cons q rest ih =>
    obtain ⟨nm, sv⟩ := q
    intro vols
    obtain ⟨txt1, vols1, h1⟩ :=
      generateContainer_ok nm sv vols (h (nm, sv) (List.mem_cons_self _ rest))
    obtain ⟨txt2, vols2, h2⟩ := ih (fun p hp => h p (List.mem_cons_of_mem _ hp)) vols1
    refine ⟨txt1 ++ txt2, vols2, ?_⟩
    unfold genServices
    simp only [h1, h2]

theorem genServices_err (pre : List (List Char × Service)) (nm : List Char)
    (sv : Service) (rest : List (List Char × Service))
    (hpre : ∀ q ∈ pre, q.2.image ≠ []) (h : sv.image = []) :
    ∀ vols, genServices (pre ++ (nm, sv) :: rest) vols =
      Except.error (imageErr nm) := by
  induction pre with
  | nil =>
    intro vols
    rw [List.nil_append]
    unfold genServices
    rw [generateContainer_err nm sv vols h]
  | cons q pre' ih =>
    obtain ⟨qn, qs⟩ := q
    intro vols
    obtain ⟨txt1, vols1, h1⟩ :=
      generateContainer_ok qn qs vols (hpre (qn, qs) (List.mem_cons_self _ pre'))
    rw [List.cons_append]
    unfold genServices
    simp only [h1, ih (fun p hp => hpre p (List.mem_cons_of_mem _ hp)) vols1]

/-! ## Claim theorems -/

/-- C1: `Generate` fails exactly on a missing image. If every service
has a non-empty image, no error is produced; otherwise the first
service (in iteration order) with an empty image aborts generation for
the whole document with an error message identifying that service. -/
theorem C1_generate_image_required (compose : ComposeFile) (podName : List Char) :
    ((∀ p ∈ compose.services, p.2.image ≠ []) →
      (generate compose podName).2 = none) ∧
    (∀ pre nm sv rest, compose.services = pre ++ (nm, sv) :: rest →
      (∀ q ∈ pre, q.2.image ≠ []) → sv.image = [] →
      (generate compose podName).2 = some (imageErr nm)) := by
  constructor
  · intro h
    obtain ⟨txt, vols2, hok⟩ := genServices_ok compose.services h []
    unfold generate
    simp only [hok]
  · intro pre nm sv rest hsplit hpre h
    unfold generate
    rw [hsplit]
    simp only [genServices_err pre nm sv rest hpre h []]

theorem C1_witness :
    (generate composeOk (chars "pod")).2 = none ∧
    (generate composeBad (chars "pod")).2 = some (imageErr (chars "bad")) :=
  ⟨(C1_generate_image_required composeOk (chars "pod")).1 (by decide),
   (C1_generate_image_required composeBad (chars "pod")).2
     [(chars "redis", svcOk)] (chars "bad") svcNoImage [] rfl (by decide) rfl⟩

/-- C2 (amended): for a volume spec whose isolated source is a named
volume (not a host path), the recorded volume entry's canonical name
equals the literal source string, and its hostPath field also holds the
literal source string (non-empty whenever the source is) rather than
being empty; the entry is not classified as a host path. -/
theorem C2_named_volume_entry (vol src mp : List Char) (used : List VolumeInfo)
    (h : isolateSource vol = some (src, mp)) (hn : isHostPath src = false)
    (hfresh : used.any (fun vi => vi.name == src) = false) :
    (collectVolumes [vol] used).2 = used ++ [⟨src, src, false⟩] := by
  unfold collectVolumes
  simp only [List.foldl_cons, List.foldl_nil]
  rw [parseVolume_named vol src mp h hn]
  simp [hfresh]

theorem C2_counterexample :
    isHostPath (chars "db-data") = false ∧
    (collectVolumes [chars "db-data:/var/lib/mysql"] []).2 =
      [⟨chars "db-data", chars "db-data", false⟩] ∧
    chars "db-data" ≠ ([] : List Char) := by decide

theorem C2_witness :
    isolateSource (chars "db-data:/var/lib/mysql") =
      some (chars "db-data", chars "/var/lib/mysql") ∧
    isHostPath (chars "db-data") = false ∧
    (([] : List VolumeInfo)).any (fun vi => vi.name == chars "db-data") = false ∧
    (collectVolumes [chars "db-data:/var/lib/mysql"] []).2 =
      [] ++ [⟨chars "db-data", chars "db-data", false⟩] :=
  ⟨by decide, by decide, by decide,
   C2_named_volume_entry (chars "db-data:/var/lib/mysql") (chars "db-data")
     (chars "/var/lib/mysql") [] (by decide) (by decide) (by decide)⟩

/-- C3 (amended): for bindings with non-empty keys containing no `=`,
the mapping encodings (string-keyed and untyped-keyed) and the
`KEY=VALUE` sequence encoding normalize to an identical map; a sequence
entry is split at its first `=` when that `=` sits at a positive index,
and an entry without any `=` is dropped. -/
theorem C3_env_encodings (bs : List (List Char × List Char))
    (hbs : ∀ p ∈ bs, p.1 ≠ [] ∧ '=' ∉ p.1) :
    (environmentMap (GoVal.vmapS (bs.map (fun p => (p.1, GoVal.vstr p.2)))) =
       environmentMap (GoVal.vseq (bs.map (fun p => GoVal.vstr (p.1 ++ '=' :: p.2)))) ∧
     environmentMap (GoVal.vmapI (bs.map (fun p => (GoVal.vstr p.1, GoVal.vstr p.2)))) =
       environmentMap (GoVal.vseq (bs.map (fun p => GoVal.vstr (p.1 ++ '=' :: p.2))))) ∧
    (∀ m s, '=' ∉ s → envSeqStep m s = m) ∧
    (∀ m k v, k ≠ [] → '=' ∉ k → envSeqStep m (k ++ '=' :: v) = envInsert m k v) := by
  refine ⟨⟨?_, ?_⟩, fun m s hs => envSeqStep_drop m s hs,
    fun m k v hk hke => envSeqStep_insert m k v hk hke⟩
  · simp only [environmentMap]
    exact envFold_seq_eq bs hbs []
  · simp only [environmentMap]
    rw [envFold_mapI_eq bs []]
    exact envFold_seq_eq bs hbs []

theorem C3_counterexample :
    '=' ∉ ([] : List Char) ∧
    environmentMap (GoVal.vmapS [(([] : List Char), GoVal.vstr (chars "v"))]) ≠
      environmentMap (GoVal.vseq [GoVal.vstr (([] : List Char) ++ '=' :: chars "v")]) := by
  decide

theorem C3_witness :
    environmentMap (GoVal.vmapS
        ([(chars "KEY1", chars "value1"), (chars "KEY2", chars "value2")].map
          (fun p => (p.1, GoVal.vstr p.2)))) =
      environmentMap (GoVal.vseq
        ([(chars "KEY1", chars "value1"), (chars "KEY2", chars "value2")].map
          (fun p => GoVal.vstr (p.1 ++ '=' :: p.2)))) :=
  (C3_env_encodings _ (by decide)).1.1

/-- C4: canonical volume naming is deterministic and idempotent, and
insensitive to trailing path separators: re-applying the function to
its own output is the identity, and appending any number of trailing
`/` separators to a path does not change its canonical name. -/
theorem C4_volume_name_idempotent (p : List Char) (k : Nat) :
    pathToVolumeName (pathToVolumeName p) = pathToVolumeName p ∧
    pathToVolumeName (p ++ List.replicate k '/') = pathToVolumeName p :=
  ⟨pathToVolumeName_fixed _ (goodName_pathToVolumeName p),
   pathToVolumeName_slashes p k⟩

/-- C5: on every isolated mount source, host-path detection agrees with
the claim's characterization: true iff the source starts with `/`,
starts with `./` or `../`, matches the drive-letter pattern (second
character `:` followed by `/` or `\`), or contains `/` or `\`
anywhere. -/
theorem C5_host_path_detection (vol src mp : List Char)
    (h : isolateSource vol = some (src, mp)) :
    isHostPath src = hostPathClaim src :=
  isHostPath_matches_claim src (isolateSource_src vol src mp h)

theorem C5_witness :
    isolateSource (chars "C:/data:/data") = some (chars "C:/data", chars "/data") ∧
    isHostPath (chars "C:/data") = hostPathClaim (chars "C:/data") :=
  ⟨by decide,
   C5_host_path_detection (chars "C:/data:/data") (chars "C:/data") (chars "/data")
     (by decide)⟩

/-- C6: for a Windows-pattern volume spec the source/target delimiter
is the next colon after position 2 (the drive colon never splits the
spec: the source keeps it, the target starts after the later colon);
with no such colon — or, for non-Windows input, with fewer than two
colon segments — the whole string becomes the anonymous volume
`unnamed-vol` with no host path, not classified as a path. -/
theorem C6_volume_isolation (vol : List Char) :
    (∀ idx, windowsVolPat vol = true →
      (vol.drop 3).findIdx? (fun c => c = ':') = some idx →
      (parseVolume vol).mountPath = vol.drop (3 + idx + 1) ∧
      (parseVolume vol).hostPath = vol.take (3 + idx)) ∧
    (windowsVolPat vol = true →
      (vol.drop 3).findIdx? (fun c => c = ':') = none →
      parseVolume vol = ⟨vol, chars "unnamed-vol", [], false⟩) ∧
    (windowsVolPat vol = false → (splitOnChar ':' vol).length < 2 →
      parseVolume vol = ⟨vol, chars "unnamed-vol", [], false⟩) := by
  refine ⟨?_, ?_, ?_⟩
  · intro idx hw hidx
    exact parseVolume_of_isolate vol _ _ (isolateSource_windows vol idx hw hidx)
  · intro hw hidx
    exact parseVolume_fallback vol (isolateSource_windows_none vol hw hidx)
  · intro hw hlen
    obtain ⟨x, hx⟩ := splitOnChar_short vol hlen
    refine parseVolume_fallback vol ?_
    rw [isolateSource_plain vol hw, hx]

theorem C6_witness :
    ((parseVolume (chars "C:/data:/data")).mountPath =
        (chars "C:/data:/data").drop (3 + 4 + 1) ∧
      (parseVolume (chars "C:/data:/data")).hostPath =
        (chars "C:/data:/data").take (3 + 4)) ∧
    parseVolume (chars "C:/data") = ⟨chars "C:/data", chars "unnamed-vol", [], false⟩ ∧
    parseVolume (chars "data") = ⟨chars "data", chars "unnamed-vol", [], false⟩ :=
  ⟨(C6_volume_isolation (chars "C:/data:/data")).1 4 (by decide) (by decide),
   (C6_volume_isolation (chars "C:/data")).2.1 (by decide) (by decide),
   (C6_volume_isolation (chars "data")).2.2 (by decide) (by decide)⟩

/-- C7: the port parser's rules by segment count: three colon segments
yield the third as container port with the first two re-joined by `:`
as host port; two segments yield (second, first); any other count
returns the whole input as the container port with no host port. -/
theorem C7_port_rules (port : List Char) :
    (∀ a b c, splitOnChar ':' port = [a, b, c] →
      parsePort port = (c, a ++ ':' :: b)) ∧
    (∀ a b, splitOnChar ':' port = [a, b] → parsePort port = (b, a)) ∧
    ((splitOnChar ':' port).length ≠ 2 → (splitOnChar ':' port).length ≠ 3 →
      parsePort port = (port, [])) := by
  refine ⟨?_, ?_, ?_⟩
  · intro a b c h
    simp [parsePort, h]
  · intro a b h
    simp [parsePort, h]
  · intro h2 h3
    simp only [parsePort]
    rw [dif_neg h3, dif_neg h2]

theorem C7_witness :
    parsePort (chars "127.0.0.1:8080:80") = (chars "80", chars "127.0.0.1" ++ ':' :: chars "8080") ∧
    parsePort (chars "8080:80") = (chars "80", chars "8080") ∧
    parsePort (chars "3000") = (chars "3000", []) :=
  ⟨(C7_port_rules (chars "127.0.0.1:8080:80")).1 (chars "127.0.0.1") (chars "8080")
     (chars "80") (by decide),
   (C7_port_rules (chars "8080:80")).2.1 (chars "8080") (chars "80") (by decide),
   (C7_port_rules (chars "3000")).2.2 (by decide) (by decide)⟩

/-- C8: for every non-empty input path the canonical volume name is
non-empty, at most 63 characters, does not end in the separator `-`;
it starts with the literal `vol-` whenever the sanitized result would
start with a dash or digit, and equals the fallback literal `volume`
whenever the sanitized result would otherwise be empty. -/
theorem C8_volume_name_shape (p : List Char) (hp : p ≠ []) :
    pathToVolumeName p ≠ [] ∧
    (pathToVolumeName p).length ≤ 63 ∧
    (pathToVolumeName p).getLast? ≠ some '-' ∧
    (dashOrDigit (volTrimmed p) = true →
      ∃ rest, pathToVolumeName p = chars "vol-" ++ rest) ∧
    (volTrimmed p = [] → pathToVolumeName p = chars "volume") := by
  obtain ⟨h1, h2, _, _, h5⟩ := goodName_pathToVolumeName p
  exact ⟨h1, h2, h5, pathToVolumeName_vol_lead p, pathToVolumeName_fallback p⟩

theorem C8_witness :
    chars "9data" ≠ ([] : List Char) ∧
    (pathToVolumeName (chars "9data") ≠ [] ∧
     (pathToVolumeName (chars "9data")).length ≤ 63 ∧
     (pathToVolumeName (chars "9data")).getLast? ≠ some '-' ∧
     (dashOrDigit (volTrimmed (chars "9data")) = true →
       ∃ rest, pathToVolumeName (chars "9data") = chars "vol-" ++ rest) ∧
     (volTrimmed (chars "9data") = [] →
       pathToVolumeName (chars "9data") = chars "volume")) :=
  ⟨by decide, C8_volume_name_shape (chars "9data") (by decide)⟩

/-- C9: when the normalized depends-on list is non-empty, the generated
container unit contains an `After=` line and a `Requires=` line, each
listing every dependency's generated unit name (`dep.service`). -/
theorem C9_quadlet_deps (name : List Char) (sv : Service)
    (h : dependsOnList sv.dependsOn ≠ []) :
    (chars "After=" ++ joinSep ' '
        ((dependsOnList sv.dependsOn).map (fun dep => dep ++ chars ".service")))
      ∈ quadletContainerLines name sv ∧
    (chars "Requires=" ++ joinSep ' '
        ((dependsOnList sv.dependsOn).map (fun dep => dep ++ chars ".service")))
      ∈ quadletContainerLines name sv := by
  constructor <;> simp [quadletContainerLines, h]

theorem C9_witness :
    dependsOnList svcDeps.dependsOn ≠ [] ∧
    ((chars "After=" ++ joinSep ' '
        ((dependsOnList svcDeps.dependsOn).map (fun dep => dep ++ chars ".service")))
      ∈ quadletContainerLines (chars "web") svcDeps ∧
     (chars "Requires=" ++ joinSep ' '
        ((dependsOnList svcDeps.dependsOn).map (fun dep => dep ++ chars ".service")))
      ∈ quadletContainerLines (chars "web") svcDeps) :=
  ⟨by decide, C9_quadlet_deps (chars "web") svcDeps (by decide)⟩

/-- C10: whenever `Generate` returns an error, the manifest string half
of the pair is empty — no partial manifest accompanies an error. -/
theorem C10_error_empty_manifest (compose : ComposeFile) (podName : List Char)
    (h : (generate compose podName).2 ≠ none) :
    (generate compose podName).1 = [] := by
  cases hgs : genServices compose.services [] with
  | error e =>
    unfold generate
    simp only [hgs]
  | ok pr =>
    obtain ⟨body, vols⟩ := pr
    exfalso
    apply h
    unfold generate
    simp only [hgs]

theorem C10_witness :
    (generate composeBad (chars "pod")).2 ≠ none ∧
    (generate composeBad (chars "pod")).1 = [] :=
  ⟨by decide, C10_error_empty_manifest composeBad (chars "pod") (by decide)⟩

end Compose2Podman
